import Mathlib

/-!
Verification of the `fastapi-g-context` scoped variable store
(`fastapi_g_context/fastapi_g.py`).

The source keeps ONE `Globals` singleton `g` whose `_vars` field is a single
Python dict mapping variable names to `contextvars.ContextVar` objects.  The
dict itself is shared by every execution context; only the *value* of each
`ContextVar` is context-local.  The ASGI middleware clears the shared dict and
runs each request inside `copy_context()`.

Embedding:
* `PyVal` — the Python values exercised by the store (including `None`, the
  default sentinel).
* `Context` — a `contextvars.Context`: a partial valuation of `ContextVar`
  tokens (natural numbers); `Option.none` means `ContextVar.get` raises
  `LookupError` there.
* `Store` — the shared `_vars` dict (insertion-ordered association list with
  unique keys, as a Python dict) plus the supply of fresh `ContextVar` tokens.
* Each method of `Globals` becomes a function of the shared `Store` and the
  the `Context` of the calling branch; fallible methods return `Except PyErr _`.
-/

set_option autoImplicit false

namespace FastapiG

/-- Python values stored in `g` (covers the values used by the repository:
`None`, ints, strings, booleans).  `PyVal.none` doubles as the omitted-default
sentinel of `Globals.get` / `Globals.pop`. -/
inductive PyVal where
  | none
  | int (n : Int)
  | str (s : String)
  | bool (b : Bool)
  deriving DecidableEq, Repr

/-- The exceptions the store can raise: `AttributeError` from
`Globals.__getattr__` (the NotFound of the spec), and `LookupError` from
`ContextVar.get` when the variable has no value in the current context. -/
inductive PyErr where
  | attributeError
  | lookupError
  deriving DecidableEq, Repr

/-- A `contextvars.Context`: the per-branch assignment of values to
`ContextVar` tokens.  `Option.none` means the variable is unset in this
context. -/
abbrev Context : Type := Nat → Option PyVal

/-- A context in which no `ContextVar` has a value. -/
def emptyCtx : Context := fun _ => Option.none

/-- `ContextVar.set(value)`: sets the value of the variable in the current
context only. -/
def cvSet (c : Context) (id : Nat) (v : PyVal) : Context :=
  fun j => if j = id then some v else c j

/-- `ContextVar.get()` with no default: the value in the current context, or
`LookupError` when unset (the `ContextVar`s created by `Globals.__setattr__`
carry no default). -/
def cvRead (c : Context) (id : Nat) : Except PyErr PyVal :=
  match c id with
  | some v => Except.ok v
  | Option.none => Except.error PyErr.lookupError

/-- Python dict lookup on an insertion-ordered association list. -/
def dictGet {β : Type} : List (String × β) → String → Option β
  | [], _ => Option.none
  | p :: ps, n => if p.1 = n then some p.2 else dictGet ps n

/-- Python dict deletion (`dict.pop`): removes the entry for the key. -/
def dictErase {β : Type} : List (String × β) → String → List (String × β)
  | [], _ => []
  | p :: ps, n => if p.1 = n then ps else p :: dictErase ps n

/-- Python dict insertion: overwrites in place when the key exists, otherwise
appends at the end (insertion order). -/
def dictInsert {β : Type} : List (String × β) → String → β → List (String × β)
  | [], k, v => [(k, v)]
  | p :: ps, k, v => if p.1 = k then (k, v) :: ps else p :: dictInsert ps k v

/-- The shared state behind the `Globals` singleton: the `_vars` dict (names
to `ContextVar` tokens) and the supply of fresh tokens for `ContextVar`
allocation.  This dict is one object, reached through the module-level `g`
from every execution context. -/
structure Store where
  vars : List (String × Nat)
  next : Nat
  deriving DecidableEq, Repr

/-- `Globals.clear`: `self._vars.clear()` — empties the shared dict. -/
def clear (s : Store) : Store :=
  { s with vars := [] }

/-- `Globals.__setattr__`: if the name is not in `_vars`, allocate a fresh
`ContextVar` and put it in the shared dict; then set its value in the calling
context. -/
def setattr (s : Store) (c : Context) (name : String) (value : PyVal) :
    Store × Context :=
  match dictGet s.vars name with
  | some id => (s, cvSet c id value)
  | Option.none =>
    ({ vars := s.vars ++ [(name, s.next)], next := s.next + 1 },
     cvSet c s.next value)

/-- `Globals.__getattr__`: value of the variable, `AttributeError` when the
name is not in `_vars`. -/
def getattr (s : Store) (c : Context) (name : String) : Except PyErr PyVal :=
  match dictGet s.vars name with
  | some id => cvRead c id
  | Option.none => Except.error PyErr.attributeError

/-- `Globals.get`: value of the variable, or `default` when the name is not in
`_vars`.  (The omitted default in Python is `None`, i.e. `PyVal.none`.) -/
def get (s : Store) (c : Context) (name : String) (default : PyVal) :
    Except PyErr PyVal :=
  match dictGet s.vars name with
  | some id => cvRead c id
  | Option.none => Except.ok default

/-- `Globals.pop`: if the name is absent return `default`; otherwise remove
the entry from the shared dict and then read the `ContextVar` (the removal
happens before the read). -/
def pop (s : Store) (c : Context) (name : String) (default : PyVal) :
    Except PyErr PyVal × Store :=
  match dictGet s.vars name with
  | Option.none => (Except.ok default, s)
  | some _id =>
    (cvRead c _id, { s with vars := dictErase s.vars name })

/-- `Globals.__contains__`: `name in self._vars`. -/
def contains (s : Store) (name : String) : Bool :=
  (dictGet s.vars name).isSome

/-- `Globals.keys`: the key iterator of the dict, in insertion order. -/
def keys (s : Store) : List String :=
  s.vars.map Prod.fst

/-- Materialize a fallible generator: produce the list of results, raising the
first error hit during iteration. -/
def mapE {α β : Type} (f : α → Except PyErr β) : List α → Except PyErr (List β)
  | [] => Except.ok []
  | a :: as =>
    match f a with
    | Except.error e => Except.error e
    | Except.ok b =>
      match mapE f as with
      | Except.error e => Except.error e
      | Except.ok bs => Except.ok (b :: bs)

/-- Body of the `Globals.values` generator: `var.get()` for one entry. -/
def valueRead (c : Context) (p : String × Nat) : Except PyErr PyVal :=
  cvRead c p.2

/-- Body of the `Globals.items` generator: `(name, var.get())` for one
entry. -/
def itemRead (c : Context) (p : String × Nat) : Except PyErr (String × PyVal) :=
  (cvRead c p.2).map (fun v => (p.1, v))

/-- `Globals.values` (materialized): `var.get()` for each entry of `_vars`, in
dict order. -/
def values (s : Store) (c : Context) : Except PyErr (List PyVal) :=
  mapE (valueRead c) s.vars

/-- `Globals.items` (materialized): `(name, var.get())` for each entry of
`_vars`, in dict order. -/
def items (s : Store) (c : Context) : Except PyErr (List (String × PyVal)) :=
  mapE (itemRead c) s.vars

/-- Helper for `to_dict`: fold of the dict comprehension, inserting each
`(name, var.get())` pair into a freshly built dict. -/
def to_dictAux (c : Context) :
    List (String × Nat) → List (String × PyVal) →
      Except PyErr (List (String × PyVal))
  | [], d => Except.ok d
  | p :: ps, d =>
    match cvRead c p.2 with
    | Except.error e => Except.error e
    | Except.ok v => to_dictAux c ps (dictInsert d p.1 v)

/-- `Globals.to_dict`: `{name: var.get() for name, var in self._vars.items()}`
— a new dict built by iterating `_vars` in order. -/
def to_dict (s : Store) (c : Context) : Except PyErr (List (String × PyVal)) :=
  to_dictAux c s.vars []

/-- `GlobalsMiddleware.__call__`, state part: `g.clear()` on the shared store,
then `copy_context()` — the request branch starts with a copy of the context
of the dispatcher (contexts are values here, so the copy is the value
itself). -/
def middlewareDispatch (s : Store) (outer : Context) : Store × Context :=
  (clear s, outer)

/-- Store/context pairs reachable by a single branch acting alone through the
public operations, starting from a cleared store (as the middleware
establishes).  Read-only operations do not change the state; `setattr`, `pop`
and `clear` do. -/
inductive Reach : Store → Context → Prop where
  | init (n : Nat) (c : Context) : Reach { vars := [], next := n } c
  | setStep {s : Store} {c : Context} (name : String) (v : PyVal) :
      Reach s c → Reach (setattr s c name v).1 (setattr s c name v).2
  | popStep {s : Store} {c : Context} (name : String) (d : PyVal) :
      Reach s c → Reach (pop s c name d).2 c
  | clearStep {s : Store} {c : Context} : Reach s c → Reach (clear s) c

/-- Every name in the shared dict has a value in context `c` — the state in
which every accessor of the current branch is total. -/
def TotalOn (s : Store) (c : Context) : Prop :=
  ∀ p ∈ s.vars, (c p.2).isSome = true

/-- Dict lookup misses exactly the names outside the key list. -/
theorem dictGet_eq_none_iff {β : Type} (l : List (String × β)) (n : String) :
    dictGet l n = Option.none ↔ n ∉ l.map Prod.fst := by
  induction l with
  | nil => simp [dictGet]
  | cons p ps ih =>
    rw [List.map_cons]
    by_cases h : p.1 = n
    · rw [dictGet, if_pos h]
      simp [← h]
    · rw [dictGet, if_neg h, ih]
      constructor
      · intro hn hmem
        rcases List.mem_cons.mp hmem with he | hm
        · exact h he.symm
        · exact hn hm
      · intro hn hm
        exact hn (List.mem_cons_of_mem _ hm)

/-- A successful dict lookup comes from an entry of the list. -/
theorem dictGet_mem {β : Type} {l : List (String × β)} {n : String} {b : β}
    (h : dictGet l n = some b) : (n, b) ∈ l := by
  induction l with
  | nil => simp [dictGet] at h
  | cons p ps ih =>
    by_cases hp : p.1 = n
    · rw [dictGet, if_pos hp] at h
      have hb : p.2 = b := by injection h
      have hpe : p = (n, b) := by
        obtain ⟨p1, p2⟩ := p
        simp only at hp hb
        rw [hp, hb]
      rw [hpe] at *
      exact List.mem_cons_self _ _
    · rw [dictGet, if_neg hp] at h
      exact List.mem_cons_of_mem _ (ih h)

/-- Lookup walks past a prefix that does not contain the key. -/
theorem dictGet_append_of_none {β : Type} {l₁ : List (String × β)}
    (l₂ : List (String × β)) (n : String) (h : dictGet l₁ n = Option.none) :
    dictGet (l₁ ++ l₂) n = dictGet l₂ n := by
  induction l₁ with
  | nil => rfl
  | cons p ps ih =>
    rw [dictGet] at h
    by_cases hp : p.1 = n
    · rw [if_pos hp] at h; simp at h
    · rw [if_neg hp] at h
      rw [List.cons_append, dictGet, if_neg hp]
      exact ih h

/-- With unique keys, lookup of the key of any entry returns its value. -/
theorem dictGet_of_mem_nodup {β : Type} {l : List (String × β)}
    (hnd : (l.map Prod.fst).Nodup) {p : String × β} (hp : p ∈ l) :
    dictGet l p.1 = some p.2 := by
  induction l with
  | nil => simp at hp
  | cons q qs ih =>
    have hnd' : (qs.map Prod.fst).Nodup := (List.nodup_cons.mp (by simpa using hnd)).2
    have hq1 : q.1 ∉ qs.map Prod.fst := (List.nodup_cons.mp (by simpa using hnd)).1
    rcases List.mem_cons.mp hp with h | h
    · rw [h]
      rw [dictGet]
      simp
    · have hq : ¬ q.1 = p.1 := by
        intro he
        exact hq1 (he ▸ List.mem_map.mpr ⟨p, h, rfl⟩)
      rw [dictGet, if_neg hq]
      exact ih hnd' h

/-- Erasing only removes entries. -/
theorem mem_dictErase {β : Type} {l : List (String × β)} {n : String}
    {p : String × β} (h : p ∈ dictErase l n) : p ∈ l := by
  induction l with
  | nil => simp [dictErase] at h
  | cons q qs ih =>
    by_cases hq : q.1 = n
    · rw [dictErase, if_pos hq] at h
      exact List.mem_cons_of_mem _ h
    · rw [dictErase, if_neg hq] at h
      rcases List.mem_cons.mp h with h | h
      · rw [h]; exact List.mem_cons_self _ _
      · exact List.mem_cons_of_mem _ (ih h)

/-- With unique keys, the erased key is gone. -/
theorem dictGet_dictErase_self {β : Type} {l : List (String × β)} (n : String)
    (hnd : (l.map Prod.fst).Nodup) :
    dictGet (dictErase l n) n = Option.none := by
  induction l with
  | nil => rfl
  | cons q qs ih =>
    have hnd' : (qs.map Prod.fst).Nodup := (List.nodup_cons.mp (by simpa using hnd)).2
    have hq1 : q.1 ∉ qs.map Prod.fst := (List.nodup_cons.mp (by simpa using hnd)).1
    by_cases hq : q.1 = n
    · rw [dictErase, if_pos hq]
      rw [dictGet_eq_none_iff]
      intro hm
      exact hq1 (hq ▸ hm)
    · rw [dictErase, if_neg hq, dictGet, if_neg hq]
      exact ih hnd'

/-- Inserting an absent key appends it at the end (Python dict semantics). -/
theorem dictInsert_of_none {β : Type} {d : List (String × β)} {k : String}
    (h : dictGet d k = Option.none) (v : β) :
    dictInsert d k v = d ++ [(k, v)] := by
  induction d with
  | nil => rfl
  | cons p ps ih =>
    rw [dictGet] at h
    by_cases hp : p.1 = k
    · rw [if_pos hp] at h; simp at h
    · rw [if_neg hp] at h
      rw [dictInsert, if_neg hp, ih h, List.cons_append]

/-- `cvSet` touches only the written token. -/
theorem cvSet_isSome {c : Context} {j : Nat} (id : Nat) (v : PyVal)
    (h : (c j).isSome = true) : (cvSet c id v j).isSome = true := by
  by_cases hj : j = id <;> simp [cvSet, hj, h]

/-- `ContextVar.get` never raises `AttributeError`. -/
theorem cvRead_ne_attr (c : Context) (id : Nat) :
    cvRead c id ≠ Except.error PyErr.attributeError := by
  unfold cvRead; cases c id <;> simp

/-- A pointwise infallible iteration materializes successfully. -/
theorem mapE_ok_of_forall {α β : Type} {f : α → Except PyErr β} {l : List α}
    (h : ∀ a ∈ l, ∃ b, f a = Except.ok b) : ∃ bs, mapE f l = Except.ok bs := by
  induction l with
  | nil => exact ⟨[], rfl⟩
  | cons a as ih =>
    obtain ⟨b, hb⟩ := h a (List.mem_cons_self a as)
    obtain ⟨bs, hbs⟩ := ih (fun x hx => h x (List.mem_cons_of_mem _ hx))
    exact ⟨b :: bs, by simp [mapE, hb, hbs]⟩

/-- An error raised while materializing an iteration comes from some element. -/
theorem mapE_error {α β : Type} {f : α → Except PyErr β} {l : List α} {e : PyErr}
    (h : mapE f l = Except.error e) : ∃ a ∈ l, f a = Except.error e := by
  induction l with
  | nil => simp [mapE] at h
  | cons a as ih =>
    cases hfa : f a with
    | error e₁ =>
      simp [mapE, hfa] at h
      exact ⟨a, List.mem_cons_self a as, by rw [hfa, h]⟩
    | ok b =>
      cases hmb : mapE f as with
      | error e₁ =>
        simp [mapE, hfa, hmb] at h
        obtain ⟨x, hx, hfx⟩ := ih (by rw [hmb, h])
        exact ⟨x, List.mem_cons_of_mem _ hx, hfx⟩
      | ok bs => simp [mapE, hfa, hmb] at h

/-- Iterating over pointwise equal generators gives the same result. -/
theorem mapE_congr {α β : Type} {f g₁ : α → Except PyErr β} {l : List α}
    (h : ∀ a ∈ l, f a = g₁ a) : mapE f l = mapE g₁ l := by
  induction l with
  | nil => rfl
  | cons a as ih =>
    simp only [mapE]
    rw [h a (List.mem_cons_self a as), ih (fun x hx => h x (List.mem_cons_of_mem _ hx))]

/-- Iterating a mapped list is iterating the composition. -/
theorem mapE_map {α γ β : Type} (g₁ : γ → Except PyErr β) (h : α → γ)
    (l : List α) : mapE g₁ (l.map h) = mapE (fun a => g₁ (h a)) l := by
  induction l with
  | nil => rfl
  | cons a as ih =>
    cases hga : g₁ (h a) <;> simp [mapE, hga, ih]

/-- `values` drops exactly the name component of `items`, error for error. -/
theorem mapE_values_items (c : Context) (l : List (String × Nat)) :
    mapE (valueRead c) l
      = (mapE (itemRead c) l).map (List.map Prod.snd) := by
  induction l with
  | nil => rfl
  | cons p ps ih =>
    cases hr : cvRead c p.2 with
    | error e => simp [mapE, valueRead, itemRead, hr, Except.map]
    | ok v =>
      cases hm : mapE (itemRead c) ps with
      | error e => simp [mapE, valueRead, itemRead, hr, hm, ih, Except.map]
      | ok bs => simp [mapE, valueRead, itemRead, hr, hm, ih, Except.map]

/-- `items` zips the key list with `values`, error for error. -/
theorem mapE_items_zip (c : Context) (l : List (String × Nat)) :
    mapE (itemRead c) l
      = (mapE (valueRead c) l).map
          (fun vs => (l.map Prod.fst).zip vs) := by
  induction l with
  | nil => rfl
  | cons p ps ih =>
    cases hr : cvRead c p.2 with
    | error e => simp [mapE, valueRead, itemRead, hr, Except.map]
    | ok v =>
      cases hm : mapE (valueRead c) ps with
      | error e => simp [mapE, valueRead, itemRead, hr, hm, ih, Except.map]
      | ok vs => simp [mapE, valueRead, itemRead, hr, hm, ih, Except.map]

/-- The dict comprehension of `to_dict`, run over keys disjoint from the
accumulator and unique among themselves, appends the iterated pairs. -/
theorem to_dictAux_eq_append (c : Context) :
    ∀ (l : List (String × Nat)) (d : List (String × PyVal)),
      (l.map Prod.fst).Nodup →
      (∀ k ∈ l.map Prod.fst, dictGet d k = Option.none) →
      to_dictAux c l d
        = (mapE (itemRead c) l).map (fun ps => d ++ ps) := by
  intro l
  induction l with
  | nil =>
    intro d _ _
    simp [to_dictAux, mapE, Except.map]
  | cons p ps ih =>
    intro d hnd hdisj
    have hnd' : (ps.map Prod.fst).Nodup := (List.nodup_cons.mp (by simpa using hnd)).2
    have hp1 : p.1 ∉ ps.map Prod.fst := (List.nodup_cons.mp (by simpa using hnd)).1
    cases hr : cvRead c p.2 with
    | error e => simp [to_dictAux, mapE, itemRead, hr, Except.map]
    | ok v =>
      have hd : dictGet d p.1 = Option.none :=
        hdisj p.1 (by simp)
      have hins : dictInsert d p.1 v = d ++ [(p.1, v)] := dictInsert_of_none hd v
      have hdisj' : ∀ k ∈ ps.map Prod.fst,
          dictGet (d ++ [(p.1, v)]) k = Option.none := by
        intro k hk
        rw [dictGet_append_of_none _ k (hdisj k (List.mem_cons_of_mem _ hk))]
        have hne : ¬ p.1 = k := fun he => hp1 (he ▸ hk)
        simp [dictGet, hne]
      have hrec := ih (d ++ [(p.1, v)]) hnd' hdisj'
      cases hm : mapE (itemRead c) ps with
      | error e =>
        rw [hm] at hrec
        simp [to_dictAux, mapE, itemRead, hr, hins, hrec, hm, Except.map]
      | ok bs =>
        rw [hm] at hrec
        simp [to_dictAux, mapE, itemRead, hr, hins, hrec, hm, Except.map]

/-- `to_dict` and `items` agree whenever the shared dict has unique keys (it
always does in the running program). -/
theorem to_dict_eq_items (s : Store) (c : Context) (hnd : (keys s).Nodup) :
    to_dict s c = items s c := by
  unfold to_dict items
  rw [to_dictAux_eq_append c s.vars [] hnd (fun k _ => rfl)]
  cases mapE (itemRead c) s.vars <;> simp [Except.map]

/-- A successful `to_dictAux` needs every remaining token valued. -/
theorem to_dictAux_error (c : Context) :
    ∀ (l : List (String × Nat)) (d : List (String × PyVal)) (e : PyErr),
      to_dictAux c l d = Except.error e → ∃ p ∈ l, cvRead c p.2 = Except.error e := by
  intro l
  induction l with
  | nil => intro d e h; simp [to_dictAux] at h
  | cons p ps ih =>
    intro d e h
    cases hr : cvRead c p.2 with
    | error e₁ =>
      simp [to_dictAux, hr] at h
      exact ⟨p, List.mem_cons_self p ps, by rw [hr, h]⟩
    | ok v =>
      simp only [to_dictAux, hr] at h
      obtain ⟨q, hq, hcv⟩ := ih (dictInsert d p.1 v) e h
      exact ⟨q, List.mem_cons_of_mem _ hq, hcv⟩

/-- `to_dictAux` succeeds when every remaining token is valued. -/
theorem to_dictAux_ok (c : Context) :
    ∀ (l : List (String × Nat)) (d : List (String × PyVal)),
      (∀ p ∈ l, (c p.2).isSome = true) →
      ∃ m, to_dictAux c l d = Except.ok m := by
  intro l
  induction l with
  | nil => exact fun d _ => ⟨d, rfl⟩
  | cons p ps ih =>
    intro d h
    obtain ⟨v, hv⟩ := Option.isSome_iff_exists.mp (h p (List.mem_cons_self p ps))
    obtain ⟨m, hm⟩ := ih (dictInsert d p.1 v) (fun q hq => h q (List.mem_cons_of_mem _ hq))
    exact ⟨m, by simp [to_dictAux, cvRead, hv, hm]⟩

/-- A fresh cleared store is total in any context. -/
theorem totalOn_clear (s : Store) (c : Context) : TotalOn (clear s) c := by
  intro p hp; simp [clear] at hp

/-- `setattr` keeps the branch total: it values the token it creates. -/
theorem totalOn_setattr {s : Store} {c : Context} (h : TotalOn s c)
    (name : String) (v : PyVal) :
    TotalOn (setattr s c name v).1 (setattr s c name v).2 := by
  unfold setattr
  cases hg : dictGet s.vars name with
  | some id =>
    intro p hp
    exact cvSet_isSome id v (h p hp)
  | none =>
    intro p hp
    simp only at hp
    rcases List.mem_append.mp hp with hp | hp
    · exact cvSet_isSome _ _ (h p hp)
    · rw [List.mem_singleton] at hp
      rw [hp]
      simp [cvSet]

/-- `pop` keeps the branch total: it only removes an entry. -/
theorem totalOn_pop {s : Store} {c : Context} (h : TotalOn s c)
    (name : String) (d : PyVal) : TotalOn (pop s c name d).2 c := by
  intro p hp
  unfold pop at hp
  cases hg : dictGet s.vars name with
  | none => rw [hg] at hp; exact h p hp
  | some id =>
    rw [hg] at hp
    exact h p (mem_dictErase hp)

/-- Single-branch reachability invariant: every name in the shared dict has a
value in the context of the branch. -/
theorem reach_totalOn {s : Store} {c : Context} (h : Reach s c) : TotalOn s c := by
  induction h with
  | init n c => intro p hp; simp at hp
  | setStep name v _ ih => exact totalOn_setattr ih name v
  | popStep name d _ ih => exact totalOn_pop ih name d
  | clearStep _ _ => exact totalOn_clear _ _

/-- In a total state, `Globals.get` always succeeds. -/
theorem totalOn_get_ok {s : Store} {c : Context} (h : TotalOn s c)
    (n : String) (d : PyVal) : ∃ v, get s c n d = Except.ok v := by
  unfold get
  cases hg : dictGet s.vars n with
  | none => exact ⟨d, rfl⟩
  | some id =>
    obtain ⟨v, hv⟩ := Option.isSome_iff_exists.mp (h _ (dictGet_mem hg))
    exact ⟨v, by simp [cvRead, hv]⟩

/-- In a total state, `Globals.__getattr__` succeeds on every contained
name. -/
theorem totalOn_getattr_ok {s : Store} {c : Context} (h : TotalOn s c)
    {n : String} (hc : contains s n = true) :
    ∃ v, getattr s c n = Except.ok v := by
  unfold getattr
  unfold contains at hc
  cases hg : dictGet s.vars n with
  | none => rw [hg] at hc; simp at hc
  | some id =>
    obtain ⟨v, hv⟩ := Option.isSome_iff_exists.mp (h _ (dictGet_mem hg))
    exact ⟨v, by simp [cvRead, hv]⟩

/-- In a total state, `Globals.pop` always returns a value. -/
theorem totalOn_pop_ok {s : Store} {c : Context} (h : TotalOn s c)
    (n : String) (d : PyVal) : ∃ v, (pop s c n d).1 = Except.ok v := by
  unfold pop
  cases hg : dictGet s.vars n with
  | none => exact ⟨d, rfl⟩
  | some id =>
    obtain ⟨v, hv⟩ := Option.isSome_iff_exists.mp (h _ (dictGet_mem hg))
    exact ⟨v, by simp [cvRead, hv]⟩

/-- In a total state, `Globals.values` materializes without error. -/
theorem totalOn_values_ok {s : Store} {c : Context} (h : TotalOn s c) :
    ∃ l, values s c = Except.ok l := by
  unfold values
  refine mapE_ok_of_forall (fun p hp => ?_)
  obtain ⟨v, hv⟩ := Option.isSome_iff_exists.mp (h p hp)
  exact ⟨v, by simp [valueRead, cvRead, hv]⟩

/-- In a total state, `Globals.items` materializes without error. -/
theorem totalOn_items_ok {s : Store} {c : Context} (h : TotalOn s c) :
    ∃ l, items s c = Except.ok l := by
  unfold items
  refine mapE_ok_of_forall (fun p hp => ?_)
  obtain ⟨v, hv⟩ := Option.isSome_iff_exists.mp (h p hp)
  exact ⟨(p.1, v), by simp [itemRead, cvRead, hv, Except.map]⟩

/-- In a total state, `Globals.to_dict` succeeds. -/
theorem totalOn_to_dict_ok {s : Store} {c : Context} (h : TotalOn s c) :
    ∃ m, to_dict s c = Except.ok m :=
  to_dictAux_ok c s.vars [] h

/-- `Globals.get` never raises `AttributeError`. -/
theorem get_ne_attr (s : Store) (c : Context) (n : String) (d : PyVal) :
    get s c n d ≠ Except.error PyErr.attributeError := by
  unfold get
  cases dictGet s.vars n with
  | none => simp
  | some id => exact cvRead_ne_attr c id

/-- `Globals.pop` never raises `AttributeError`. -/
theorem pop_ne_attr (s : Store) (c : Context) (n : String) (d : PyVal) :
    (pop s c n d).1 ≠ Except.error PyErr.attributeError := by
  unfold pop
  cases dictGet s.vars n with
  | none => simp
  | some id => exact cvRead_ne_attr c id

/-- `Globals.values` never raises `AttributeError`. -/
theorem values_ne_attr (s : Store) (c : Context) :
    values s c ≠ Except.error PyErr.attributeError := by
  intro h
  obtain ⟨p, _, hp⟩ := mapE_error h
  exact cvRead_ne_attr c p.2 hp

/-- `Globals.items` never raises `AttributeError`. -/
theorem items_ne_attr (s : Store) (c : Context) :
    items s c ≠ Except.error PyErr.attributeError := by
  intro h
  obtain ⟨p, _, hp⟩ := mapE_error h
  unfold itemRead at hp
  cases hcv : cvRead c p.2 with
  | error e =>
    rw [hcv] at hp
    simp [Except.map] at hp
    exact cvRead_ne_attr c p.2 (by rw [hcv, hp])
  | ok v =>
    rw [hcv] at hp
    simp [Except.map] at hp

/-- `Globals.to_dict` never raises `AttributeError`. -/
theorem to_dict_ne_attr (s : Store) (c : Context) :
    to_dict s c ≠ Except.error PyErr.attributeError := by
  intro h
  obtain ⟨p, _, hp⟩ := to_dictAux_error c s.vars [] _ h
  exact cvRead_ne_attr c p.2 hp

/-- The store at the start of a fresh unit of work: shared dict cleared, no
`ContextVar` allocated yet. -/
def s0 : Store := { vars := [], next := 0 }

/-- Unit of work U1 of the isolation scenario: a freshly dispatched branch
that set `a := 1`.  Its sibling U2 runs with the untouched context
`emptyCtx`. -/
def exU1 : Store × Context := setattr s0 emptyCtx "a" (PyVal.int 1)

/-- Branch A of the fork scenario: a fresh branch that set `x := 1`.  A branch
B spawned from it starts with the copied context `exA.2`. -/
def exA : Store × Context := setattr s0 emptyCtx "x" (PyVal.int 1)

/-- Branch B of the fork scenario after it sets `x := 2` in its copied
context. -/
def exB : Store × Context := setattr exA.1 exA.2 "x" (PyVal.int 2)

/-- A fresh branch that set `k := "v"` (the pop scenario of the spec). -/
def exK : Store × Context := setattr s0 emptyCtx "k" (PyVal.str "v")

/-- A fresh branch after `set a 1; set b 2` (the snapshot scenario of the
spec). -/
def exAB : Store × Context :=
  setattr (setattr s0 emptyCtx "a" (PyVal.int 1)).1
    (setattr s0 emptyCtx "a" (PyVal.int 1)).2 "b" (PyVal.int 2)

/-- C1: the spec claims cross-branch isolation — no `set`/`pop`/`clear` of one
branch is ever observable in a concurrent non-ancestor branch, concretely
`U2.contains "a"` stays false while `U1.get "a"` stays 1.  The code violates
this: `_vars` is one dict shared by all contexts, so once U1 sets `a := 1`
the sibling U2 observes `contains "a" = true`, and the `g.clear()` the
middleware runs to dispatch U2 destroys the entry, after which U1 reads
`AttributeError` instead of 1.  (This is the execution of the repository test
`test_concurrent_requests_with_sleep_delay`, whose assertions the code
therefore fails.) -/
theorem C1_isolation_violated :
    contains exU1.1 "a" = true
    ∧ getattr exU1.1 exU1.2 "a" = Except.ok (PyVal.int 1)
    ∧ getattr (middlewareDispatch exU1.1 emptyCtx).1 exU1.2 "a"
        = Except.error PyErr.attributeError :=
  ⟨rfl, rfl, rfl⟩

/-- C2 counterexample: branch A sets `x := 1` and spawns B, which starts with
the copied context `exA.2`; B then pops `x`.  The pop removes the entry from
the shared dict, so afterwards A reads `AttributeError` for `x` instead of 1:
a mutation in the child is visible in the parent, refuting the unrestricted
invisibility clause of the claim. -/
theorem C2_counterexample :
    (pop exA.1 exA.2 "x" PyVal.none).1 = Except.ok (PyVal.int 1)
    ∧ getattr (pop exA.1 exA.2 "x" PyVal.none).2 exA.2 "x"
        = Except.error PyErr.attributeError :=
  ⟨rfl, rfl⟩

/-- C2 (amended): a spawned branch starts with exactly the pairs of the parent
(concretely, B inherits `x = 1`), and `set` of a name already present in the
shared dict is invisible across branches: it leaves the shared store
untouched, so the view of every other branch is unchanged — concretely, after
B sets `x := 2` in its copy, A still reads 1 and B reads 2.  (`pop`, `clear`
and the name-table effect of setting a brand-new name mutate the shared dict
and are visible across branches: see the counterexample.) -/
theorem C2_fork_overwrite_isolated (s : Store) (cA cB : Context) (n : String)
    (v : PyVal) (h : contains s n = true) :
    (setattr s cB n v).1 = s
    ∧ getattr (setattr s cB n v).1 cA n = getattr s cA n
    ∧ getattr exA.1 exA.2 "x" = Except.ok (PyVal.int 1)
    ∧ exB.1 = exA.1
    ∧ getattr exB.1 exA.2 "x" = Except.ok (PyVal.int 1)
    ∧ getattr exB.1 exB.2 "x" = Except.ok (PyVal.int 2) := by
  unfold contains at h
  obtain ⟨id, hg⟩ := Option.isSome_iff_exists.mp h
  have hs : (setattr s cB n v).1 = s := by
    unfold setattr; rw [hg]
  exact ⟨hs, by rw [hs], rfl, rfl, rfl, rfl⟩

/-- C2 witness: the amended statement applied to the concrete fork scenario
(store of branch A, name `x`, new value 2 written through the copied context
of branch B). -/
theorem C2_fork_overwrite_isolated_witness :
    contains exA.1 "x" = true
    ∧ ((setattr exA.1 exA.2 "x" (PyVal.int 2)).1 = exA.1
       ∧ getattr (setattr exA.1 exA.2 "x" (PyVal.int 2)).1 exA.2 "x"
           = getattr exA.1 exA.2 "x"
       ∧ getattr exA.1 exA.2 "x" = Except.ok (PyVal.int 1)
       ∧ exB.1 = exA.1
       ∧ getattr exB.1 exA.2 "x" = Except.ok (PyVal.int 1)
       ∧ getattr exB.1 exB.2 "x" = Except.ok (PyVal.int 2)) :=
  ⟨rfl, C2_fork_overwrite_isolated exA.1 exA.2 exA.2 "x" (PyVal.int 2) rfl⟩

/-- C3 counterexample: the operations the claim calls infallible do raise.  In
the reachable two-branch state where U1 set `a := 1` and the sibling U2
evaluates them with its own context, `getOrDefault` (`Globals.get`), `toMap`
(`to_dict`), `values` and `items` all raise `LookupError`, because the shared
dict names `a` but the `ContextVar` has no value in the context of U2. -/
theorem C3_counterexample :
    get exU1.1 emptyCtx "a" (PyVal.str "d") = Except.error PyErr.lookupError
    ∧ to_dict exU1.1 emptyCtx = Except.error PyErr.lookupError
    ∧ values exU1.1 emptyCtx = Except.error PyErr.lookupError
    ∧ items exU1.1 emptyCtx = Except.error PyErr.lookupError :=
  ⟨rfl, rfl, rfl, rfl⟩

/-- C3 (amended): no operation other than `get` (`__getattr__`) ever raises
NotFound (`AttributeError`), in any state; and in every state reachable by a
single branch acting alone, `getOrDefault` (`Globals.get`), `pop`, `values`,
`items` and `to_dict` complete without any error (`contains`, `keys`, `set`
and `clear` are total by construction).  Infallibility fails only in
cross-branch states: see the counterexample. -/
theorem C3_infallible_single_branch (s : Store) (c : Context) (h : Reach s c) :
    (∀ n d, ∃ v, get s c n d = Except.ok v)
    ∧ (∀ n d, ∃ v, (pop s c n d).1 = Except.ok v)
    ∧ (∃ l, values s c = Except.ok l)
    ∧ (∃ l, items s c = Except.ok l)
    ∧ (∃ m, to_dict s c = Except.ok m)
    ∧ (∀ (s₁ : Store) (c₁ : Context) (n : String) (d : PyVal),
        get s₁ c₁ n d ≠ Except.error PyErr.attributeError
        ∧ (pop s₁ c₁ n d).1 ≠ Except.error PyErr.attributeError
        ∧ values s₁ c₁ ≠ Except.error PyErr.attributeError
        ∧ items s₁ c₁ ≠ Except.error PyErr.attributeError
        ∧ to_dict s₁ c₁ ≠ Except.error PyErr.attributeError) := by
  have ht := reach_totalOn h
  exact ⟨fun n d => totalOn_get_ok ht n d,
         fun n d => totalOn_pop_ok ht n d,
         totalOn_values_ok ht,
         totalOn_items_ok ht,
         totalOn_to_dict_ok ht,
         fun s₁ c₁ n d =>
           ⟨get_ne_attr s₁ c₁ n d, pop_ne_attr s₁ c₁ n d, values_ne_attr s₁ c₁,
            items_ne_attr s₁ c₁, to_dict_ne_attr s₁ c₁⟩⟩

/-- C3 witness: the amended statement applied to the reachable single-branch
state in which `a := 1` was set. -/
theorem C3_infallible_single_branch_witness :
    (∀ n d, ∃ v, get exU1.1 exU1.2 n d = Except.ok v)
    ∧ (∀ n d, ∃ v, (pop exU1.1 exU1.2 n d).1 = Except.ok v)
    ∧ (∃ l, values exU1.1 exU1.2 = Except.ok l)
    ∧ (∃ l, items exU1.1 exU1.2 = Except.ok l)
    ∧ (∃ m, to_dict exU1.1 exU1.2 = Except.ok m)
    ∧ (∀ (s₁ : Store) (c₁ : Context) (n : String) (d : PyVal),
        get s₁ c₁ n d ≠ Except.error PyErr.attributeError
        ∧ (pop s₁ c₁ n d).1 ≠ Except.error PyErr.attributeError
        ∧ values s₁ c₁ ≠ Except.error PyErr.attributeError
        ∧ items s₁ c₁ ≠ Except.error PyErr.attributeError
        ∧ to_dict s₁ c₁ ≠ Except.error PyErr.attributeError) :=
  C3_infallible_single_branch exU1.1 exU1.2
    (Reach.setStep "a" (PyVal.int 1) (Reach.init 0 emptyCtx))

/-- C4: for a name absent from the scope of the branch (not in the shared
dict), `contains` is false, `get` (`__getattr__`) fails with NotFound
(`AttributeError`), `Globals.get` returns any supplied default, and with the
default omitted it returns the `None` sentinel. -/
theorem C4_absent_name (s : Store) (c : Context) (n : String)
    (h : dictGet s.vars n = Option.none) :
    contains s n = false
    ∧ getattr s c n = Except.error PyErr.attributeError
    ∧ (∀ d, get s c n d = Except.ok d)
    ∧ get s c n PyVal.none = Except.ok PyVal.none := by
  refine ⟨?_, ?_, fun d => ?_, ?_⟩ <;> simp [contains, getattr, get, h]

/-- C4 witness: the statement applied to the name `missing`, never set, in the
populated state of U1. -/
theorem C4_absent_name_witness :
    dictGet exU1.1.vars "missing" = Option.none
    ∧ (contains exU1.1 "missing" = false
       ∧ getattr exU1.1 exU1.2 "missing" = Except.error PyErr.attributeError
       ∧ (∀ d, get exU1.1 exU1.2 "missing" d = Except.ok d)
       ∧ get exU1.1 exU1.2 "missing" PyVal.none = Except.ok PyVal.none) :=
  ⟨rfl, C4_absent_name exU1.1 exU1.2 "missing" rfl⟩

/-- C5 counterexample: in the reachable two-branch state in which U1 set
`a := 1`, the sibling U2 pops `a`: the pop raises `LookupError` — and the
entry has already been removed from the shared dict, so on this error the
store state is changed, refuting the "on any error the store state is
unchanged" clause. -/
theorem C5_counterexample :
    (pop exU1.1 emptyCtx "a" PyVal.none).1 = Except.error PyErr.lookupError
    ∧ (pop exU1.1 emptyCtx "a" PyVal.none).2 ≠ exU1.1 :=
  ⟨rfl, by decide⟩

/-- C5 (amended): `pop name` removes and returns the value when the name is
present with a value in the context of the caller (afterwards `contains name`
is false); when the name is absent it returns the supplied default, or the
`None` sentinel, without failing; `pop` never raises NotFound
(`AttributeError`).  But when the name was created by another branch and has
no value in the context of the caller, `pop` raises `LookupError` and the
entry is removed anyway, so on that error the store state is changed.  The
concrete spec scenario holds: after `set k "v"`, `pop k` returns `"v"` and
afterwards `contains k` is false; `pop missing` returns the sentinel and
`pop missing "d"` returns `"d"`, both leaving the store unchanged. -/
theorem C5_pop_semantics (s : Store) (c : Context) (n : String) (d : PyVal)
    (hnd : (keys s).Nodup) :
    (contains s n = false → pop s c n d = (Except.ok d, s))
    ∧ (∀ id v, dictGet s.vars n = some id → c id = some v →
        pop s c n d = (Except.ok v, { s with vars := dictErase s.vars n }))
    ∧ contains (pop s c n d).2 n = false
    ∧ (pop s c n d).1 ≠ Except.error PyErr.attributeError
    ∧ (pop exK.1 exK.2 "k" PyVal.none).1 = Except.ok (PyVal.str "v")
    ∧ contains (pop exK.1 exK.2 "k" PyVal.none).2 "k" = false
    ∧ pop exK.1 exK.2 "missing" PyVal.none = (Except.ok PyVal.none, exK.1)
    ∧ (pop exK.1 exK.2 "missing" (PyVal.str "d")).1 = Except.ok (PyVal.str "d") := by
  refine ⟨?_, ?_, ?_, pop_ne_attr s c n d, rfl, rfl, rfl, rfl⟩
  · intro hc
    unfold contains at hc
    unfold pop
    cases hg : dictGet s.vars n with
    | none => rfl
    | some id => rw [hg] at hc; simp at hc
  · intro id v hg hv
    unfold pop
    rw [hg]
    simp [cvRead, hv]
  · unfold pop
    cases hg : dictGet s.vars n with
    | none =>
      unfold contains
      rw [hg]
      rfl
    | some id =>
      unfold contains
      simp only
      rw [dictGet_dictErase_self n hnd]
      rfl

/-- C5 witness: the amended statement applied to the concrete pop scenario
after `set k "v"`. -/
theorem C5_pop_semantics_witness :
    (keys exK.1).Nodup
    ∧ ((contains exK.1 "k" = false → pop exK.1 exK.2 "k" PyVal.none = (Except.ok PyVal.none, exK.1))
       ∧ (∀ id v, dictGet exK.1.vars "k" = some id → exK.2 id = some v →
           pop exK.1 exK.2 "k" PyVal.none
             = (Except.ok v, { exK.1 with vars := dictErase exK.1.vars "k" }))
       ∧ contains (pop exK.1 exK.2 "k" PyVal.none).2 "k" = false
       ∧ (pop exK.1 exK.2 "k" PyVal.none).1 ≠ Except.error PyErr.attributeError
       ∧ (pop exK.1 exK.2 "k" PyVal.none).1 = Except.ok (PyVal.str "v")
       ∧ contains (pop exK.1 exK.2 "k" PyVal.none).2 "k" = false
       ∧ pop exK.1 exK.2 "missing" PyVal.none = (Except.ok PyVal.none, exK.1)
       ∧ (pop exK.1 exK.2 "missing" (PyVal.str "d")).1 = Except.ok (PyVal.str "d")) :=
  ⟨by decide, C5_pop_semantics exK.1 exK.2 "k" PyVal.none (by decide)⟩

/-- C6: `clear` resets the scope to exactly the empty mapping, in any state:
afterwards the shared dict is empty, `keys` is the empty sequence, and
`contains` is false for every name. -/
theorem C6_clear_resets (s : Store) :
    (clear s).vars = [] ∧ keys (clear s) = []
    ∧ ∀ n, contains (clear s) n = false :=
  ⟨rfl, rfl, fun _ => rfl⟩

/-- C7: `set` is total (it returns a state, no error path) and last write
wins: reading the name back in the writing branch gives the written value;
the key list gains the name only when it was absent, so an overwrite never
adds a second entry, and uniqueness of names is preserved. -/
theorem C7_set_total_last_write_wins (s : Store) (c : Context) (n : String)
    (v : PyVal) (hnd : (keys s).Nodup) :
    getattr (setattr s c n v).1 (setattr s c n v).2 n = Except.ok v
    ∧ keys (setattr s c n v).1
        = (if contains s n = true then keys s else keys s ++ [n])
    ∧ (keys (setattr s c n v).1).Nodup := by
  cases hg : dictGet s.vars n with
  | some id =>
    have hc : contains s n = true := by unfold contains; rw [hg]; rfl
    refine ⟨?_, ?_, ?_⟩
    · simp [getattr, setattr, hg, cvRead, cvSet]
    · simp [keys, setattr, hg, hc]
    · simpa [keys, setattr, hg] using hnd
  | none =>
    have hc : contains s n = false := by unfold contains; rw [hg]; rfl
    have hnotin : n ∉ s.vars.map Prod.fst := (dictGet_eq_none_iff s.vars n).mp hg
    refine ⟨?_, ?_, ?_⟩
    · simp [getattr, setattr, hg, dictGet_append_of_none _ n hg, dictGet,
        cvRead, cvSet]
    · simp [keys, setattr, hg, hc]
    · have hap : (s.vars.map Prod.fst ++ [n]).Nodup := by
        refine List.Nodup.append hnd (List.nodup_singleton n) ?_
        intro a ha hb
        rw [List.mem_singleton] at hb
        exact hnotin (hb ▸ ha)
      simpa [keys, setattr, hg] using hap

/-- C7 witness: the statement applied to the overwrite `k := "w"` in the
state that already holds `k = "v"`. -/
theorem C7_set_total_last_write_wins_witness :
    (keys exK.1).Nodup
    ∧ (getattr (setattr exK.1 exK.2 "k" (PyVal.str "w")).1
         (setattr exK.1 exK.2 "k" (PyVal.str "w")).2 "k"
         = Except.ok (PyVal.str "w")
       ∧ keys (setattr exK.1 exK.2 "k" (PyVal.str "w")).1
           = (if contains exK.1 "k" = true then keys exK.1 else keys exK.1 ++ ["k"])
       ∧ (keys (setattr exK.1 exK.2 "k" (PyVal.str "w")).1).Nodup) :=
  ⟨by decide, C7_set_total_last_write_wins exK.1 exK.2 "k" (PyVal.str "w") (by decide)⟩

/-- C8: the enumeration snapshots are mutually consistent and follow the one
insertion order of the shared dict: `values` is `items` without the names
(error for error), `items` is `keys` zipped with `values`, the mapping built
by `to_dict` equals the `items` pairs, and `keys` lists exactly the contained
names. -/
theorem C8_snapshot_consistency (s : Store) (c : Context)
    (hnd : (keys s).Nodup) :
    values s c = (items s c).map (List.map Prod.snd)
    ∧ items s c = (values s c).map (fun vs => (keys s).zip vs)
    ∧ to_dict s c = items s c
    ∧ (∀ n, contains s n = true ↔ n ∈ keys s) := by
  refine ⟨mapE_values_items c s.vars, mapE_items_zip c s.vars,
          to_dict_eq_items s c hnd, fun n => ?_⟩
  constructor
  · intro hc
    unfold contains at hc
    cases hg : dictGet s.vars n with
    | none => rw [hg] at hc; simp at hc
    | some id => exact List.mem_map.mpr ⟨(n, id), dictGet_mem hg, rfl⟩
  · intro hm
    unfold contains
    cases hg : dictGet s.vars n with
    | none => exact absurd hm ((dictGet_eq_none_iff s.vars n).mp hg)
    | some id => rfl

/-- C8 witness: the statement applied to the state after `set a 1; set b 2`. -/
theorem C8_snapshot_consistency_witness :
    (keys exAB.1).Nodup
    ∧ (values exAB.1 exAB.2 = (items exAB.1 exAB.2).map (List.map Prod.snd)
       ∧ items exAB.1 exAB.2
           = (values exAB.1 exAB.2).map (fun vs => (keys exAB.1).zip vs)
       ∧ to_dict exAB.1 exAB.2 = items exAB.1 exAB.2
       ∧ (∀ n, contains exAB.1 n = true ↔ n ∈ keys exAB.1)) :=
  ⟨by decide, C8_snapshot_consistency exAB.1 exAB.2 (by decide)⟩

/-- C9: `to_dict` returns entry-for-entry the mapping
`n : get n for n in keys`, including raising the same error as `get`
(`__getattr__`) does on the first name whose token is unset; it takes the
store and context as read-only arguments (no mutation by construction), and
the returned dict is a fresh value. -/
theorem C9_to_dict_entrywise_get (s : Store) (c : Context)
    (hnd : (keys s).Nodup) :
    to_dict s c
      = mapE (fun n => (getattr s c n).map (fun v => (n, v))) (keys s) := by
  rw [to_dict_eq_items s c hnd]
  unfold items keys
  rw [mapE_map]
  apply mapE_congr
  intro p hp
  have hg : dictGet s.vars p.1 = some p.2 := dictGet_of_mem_nodup hnd hp
  unfold itemRead getattr
  rw [hg]

/-- C9 witness: the statement applied to the state after
`set a 1; set b 2`. -/
theorem C9_to_dict_entrywise_get_witness :
    (keys exAB.1).Nodup
    ∧ to_dict exAB.1 exAB.2
        = mapE (fun n => (getattr exAB.1 exAB.2 n).map (fun v => (n, v)))
            (keys exAB.1) :=
  ⟨by decide, C9_to_dict_entrywise_get exAB.1 exAB.2 (by decide)⟩

/-- C10: single-branch totality invariant — in every state reachable by one
branch alone through the public operations, every contained name is
retrievable in that branch, and `values`, `items` and `to_dict` never hit an
internal lookup failure. -/
theorem C10_single_branch_totality (s : Store) (c : Context) (h : Reach s c) :
    (∀ n, contains s n = true → ∃ v, getattr s c n = Except.ok v)
    ∧ (∃ l, values s c = Except.ok l)
    ∧ (∃ l, items s c = Except.ok l)
    ∧ (∃ m, to_dict s c = Except.ok m) := by
  have ht := reach_totalOn h
  exact ⟨fun n hc => totalOn_getattr_ok ht hc, totalOn_values_ok ht,
         totalOn_items_ok ht, totalOn_to_dict_ok ht⟩

/-- C10 witness: the statement applied to the reachable state after
`set a 1; set b 2`. -/
theorem C10_single_branch_totality_witness :
    (∀ n, contains exAB.1 n = true → ∃ v, getattr exAB.1 exAB.2 n = Except.ok v)
    ∧ (∃ l, values exAB.1 exAB.2 = Except.ok l)
    ∧ (∃ l, items exAB.1 exAB.2 = Except.ok l)
    ∧ (∃ m, to_dict exAB.1 exAB.2 = Except.ok m) :=
  C10_single_branch_totality exAB.1 exAB.2
    (Reach.setStep "b" (PyVal.int 2)
      (Reach.setStep "a" (PyVal.int 1) (Reach.init 0 emptyCtx)))

end FastapiG
